import Mathlib

/-!
# Verification of csv_helper

Shallow embedding of `src/csv_helper.rs`: the `CSV` struct's four operations
(`load_csv_file`, `load_csv_read`, `save_csv_file`, `save_csv_write`)
instantiated at the record type `Bar` declared by the repository's tests.
The row-level CSV behaviour (comma delimiter, double-quote quoting, `\n`,
`\r` and `\r\n` record terminators, blank-record skipping, header handling,
per-row serde deserialization, abort on the first bad row) is the behaviour
of the `csv` crate's default `Reader` / `Writer` configuration exactly as
`load_csv_read` / `save_csv_write` invoke it; the byte-order-mark handling
of `load_csv_file` embeds `encoding_rs_io::DecodeReaderBytes`.  Cells are
modelled as `List Char`, byte streams as `List Nat`.
-/

/-- Decidable equality of results, used to evaluate concrete instances. -/
instance {ε α : Type} [DecidableEq ε] [DecidableEq α] : DecidableEq (Except ε α) :=
  fun a b =>
    match a, b with
    | .ok x, .ok y =>
      if h : x = y then .isTrue (by rw [h]) else .isFalse (by simp [h])
    | .error x, .error y =>
      if h : x = y then .isTrue (by rw [h]) else .isFalse (by simp [h])
    | .ok _, .error _ => .isFalse (by simp)
    | .error _, .ok _ => .isFalse (by simp)

namespace CsvHelper

/-! ## Row serializer (csv crate default `Writer` as used by `save_csv_write`) -/

/-- A character forcing a field to be quoted on output: the comma delimiter,
the quote character, or a record-terminator character (the `csv` crate's
default terminator is CRLF, so both `\n` and `\r` count). -/
def special (c : Char) : Bool := c == ',' || c == '"' || c == '\n' || c == '\r'

/-- Double every embedded quote character (the csv quoting escape). -/
def dq : List Char → List Char
  | [] => []
  | c :: cs => if c = '"' then '"' :: '"' :: dq cs else c :: dq cs

/-- Write one field: wrap in double quotes (doubling embedded quotes) exactly
when the field contains a special character, otherwise emit it verbatim. -/
def esc (s : List Char) : List Char :=
  if s.any special then '"' :: (dq s ++ ['"']) else s

/-- Write the cells of one record, separated by the comma delimiter. -/
def rowChars : List (List Char) → List Char
  | [] => []
  | [c] => esc c
  | c :: c2 :: cs => esc c ++ ',' :: rowChars (c2 :: cs)

/-- Write a sequence of records, each terminated by the writer's `\n`
terminator (the `csv` crate's default write terminator). -/
def csvChars : List (List (List Char)) → List Char
  | [] => []
  | r :: rs => (rowChars r ++ ['\n']) ++ csvChars rs

/-- The record terminator the embedded writer emits after every record
(the `csv` crate's default `Terminator::Any(b'\n')`). -/
def writerTerminator : String := "\n"

/-- Modelled from the spec: the "platform-conventional" row terminator the
spec says the serializer emits — `\r\n` on Windows, `\n` elsewhere.  The
source itself has no platform-dependent terminator choice. -/
def conventionalTerminator (windows : Bool) : String :=
  if windows then "\r\n" else "\n"

/-! ## Row parser (csv crate default `Reader` as used by `load_csv_read`) -/

/-- Tokenizer state: inside an unquoted field (also at field start), inside
a quoted field, or just after a quote character inside a quoted field. -/
inductive QState
  | unq
  | inq
  | postq
deriving DecidableEq

/-- The csv tokenizer: `parseRec state field row acc input` consumes `input`
one character at a time.  A `"` at field start opens a quoted field (a quote
in the middle of an unquoted field is literal); inside quotes, `""` is a
literal quote and a quote followed by a delimiter/terminator closes the
field; `,` separates fields; `\n` and `\r` each terminate a record (so
`\r\n` works, the blank record between `\r` and `\n` being skipped like any
record with no content, which is also how the reader skips empty lines). -/
def parseRec : QState → List Char → List (List Char) → List (List (List Char)) →
    List Char → List (List (List Char))
  | .unq, f, row, acc, [] => if f = [] ∧ row = [] then acc else acc ++ [row ++ [f]]
  | .inq, f, row, acc, [] => acc ++ [row ++ [f]]
  | .postq, f, row, acc, [] => acc ++ [row ++ [f]]
  | .unq, f, row, acc, c :: cs =>
    if c = ',' then parseRec .unq [] (row ++ [f]) acc cs
    else if c = '\n' ∨ c = '\r' then
      if f = [] ∧ row = [] then parseRec .unq [] [] acc cs
      else parseRec .unq [] [] (acc ++ [row ++ [f]]) cs
    else if c = '"' ∧ f = [] then parseRec .inq [] row acc cs
    else parseRec .unq (f ++ [c]) row acc cs
  | .inq, f, row, acc, c :: cs =>
    if c = '"' then parseRec .postq f row acc cs
    else parseRec .inq (f ++ [c]) row acc cs
  | .postq, f, row, acc, c :: cs =>
    if c = '"' then parseRec .inq (f ++ ['"']) row acc cs
    else if c = ',' then parseRec .unq [] (row ++ [f]) acc cs
    else if c = '\n' ∨ c = '\r' then parseRec .unq [] [] (acc ++ [row ++ [f]]) cs
    else parseRec .unq (f ++ [c]) row acc cs

/-- Tokenize an input text into records of cells. -/
def parseCsv (s : String) : List (List (List Char)) :=
  parseRec .unq [] [] [] s.data

/-! ## Decimal integers (Rust `u64` `Display` / `FromStr` as used by serde) -/

/-- One decimal digit character. -/
def digitChar (d : Nat) : Char :=
  match d with
  | 0 => '0' | 1 => '1' | 2 => '2' | 3 => '3' | 4 => '4'
  | 5 => '5' | 6 => '6' | 7 => '7' | 8 => '8' | _ => '9'

/-- Decimal representation of a natural number, as the Rust `Display`
implementation prints a `u64`. -/
def natChars (n : Nat) : List Char :=
  if n = 0 then ['0'] else (Nat.digits 10 n).reverse.map digitChar

/-- Is `c` a decimal digit character? -/
def isDigitChar (c : Char) : Bool := 48 ≤ c.toNat && c.toNat ≤ 57

/-- Parse a decimal natural number, as the Rust `FromStr` implementation for
`u64` does via serde: at least one character, all characters digits. -/
def parseNatChars (cs : List Char) : Option Nat :=
  if cs = [] then none
  else if cs.all isDigitChar then
    some (cs.foldl (fun acc c => 10 * acc + (c.toNat - 48)) 0)
  else none

/-- Coercion of a cell into the `volume : u64` field; the error text stands
for the underlying `ParseIntError` serde reports. -/
def parseNat (cs : List Char) : Except String Nat :=
  match parseNatChars cs with
  | some n => .ok n
  | none => .error "invalid digit found in string"

/-! ## The record type `Bar` (the tests' serde struct)

`f64` fields and the `NaiveDate` field are carried as their textual cell
representation: no claim depends on floating-point arithmetic or date
arithmetic, only on cells moving through serialization and parsing. -/

structure Bar where
  inst : String
  date : String
  «open» : String
  high : String
  low : String
  close : String
  volume : Nat
  test_skip : Bool
deriving DecidableEq

/-- The serde default factory for `test_skip` (`default = "always_true"`). -/
def always_true : Bool := true

/-- The header cells serde derives from `Bar`'s declared field order; the
`skip_deserializing` field is still serialized, so it appears here. -/
def barHeader : List (List Char) :=
  ["inst".data, "date".data, "open".data, "high".data, "low".data,
   "close".data, "volume".data, "test_skip".data]

/-- serde serialization of one `Bar` into cells, in declared field order. -/
def Bar.toCells (b : Bar) : List (List Char) :=
  [b.inst.data, b.date.data, b.«open».data, b.high.data, b.low.data,
   b.close.data, natChars b.volume, (if b.test_skip then "true" else "false").data]

/-! ## Deserialization (serde derive at `Bar`, as `Reader::deserialize` uses it) -/

/-- The cell of `row` under the header column named `name`, if any. -/
def getCol (header row : List (List Char)) (name : List Char) : Option (List Char) :=
  match header.findIdx? (· = name) with
  | some i => row[i]?
  | none => none

/-- A required (non-`skip_deserializing`) field: absent column is an error. -/
def reqField (header row : List (List Char)) (name : List Char) :
    Except String (List Char) :=
  match getCol header row name with
  | some v => .ok v
  | none => .error ("missing field " ++ String.mk name)

/-- serde deserialization of one record from a row: every field except
`test_skip` is read from its named column and coerced; `test_skip` is
`skip_deserializing`, so its column (present or not) is never read and the
field always receives its default `always_true`.  Unknown columns are
ignored (derived serde `Deserialize` default). -/
def Bar.fromRow (header row : List (List Char)) : Except String Bar := do
  let inst ← reqField header row "inst".data
  let date ← reqField header row "date".data
  let o ← reqField header row "open".data
  let hi ← reqField header row "high".data
  let lo ← reqField header row "low".data
  let cl ← reqField header row "close".data
  let vol ← reqField header row "volume".data
  let volume ← parseNat vol
  pure { inst := String.mk inst, date := String.mk date, «open» := String.mk o,
         high := String.mk hi, low := String.mk lo, close := String.mk cl,
         volume := volume, test_skip := always_true }

/-- The error a failed row produces: the index of the failing record and the
underlying cause (the `csv` crate's deserialize errors carry the record's
position and the causing error). -/
structure RowError where
  row : Nat
  cause : String
deriving DecidableEq

/-- The cause reported when a record's cell count differs from the header's
(the `csv` crate's `UnequalLengths` error, reader not `flexible`). -/
def lengthErr (found expected : Nat) : String :=
  "found record with " ++ toString found ++ " fields, but the previous record has "
    ++ toString expected ++ " fields"

/-- Deserialize the data records following the header, numbering them from
`i`; the first failing record aborts the whole load with its error. -/
def loadRows (header : List (List Char)) : Nat → List (List (List Char)) →
    Except RowError (List Bar)
  | _, [] => .ok []
  | i, r :: rs =>
    if r.length = header.length then
      match Bar.fromRow header r with
      | .error e => .error ⟨i, e⟩
      | .ok b =>
        match loadRows header (i + 1) rs with
        | .error e => .error e
        | .ok bs => .ok (b :: bs)
    else .error ⟨i, lengthErr r.length header.length⟩

/-! ## The four `CSV` operations -/

/-- Embedding of `CSV::load_csv_read`: tokenize the caller's input (no byte-order-mark
handling, no transcoding), take the first record as the header, deserialize
every following record eagerly; empty input has no header and yields the
empty list. -/
def load_csv_read (input : String) : Except RowError (List Bar) :=
  match parseCsv input with
  | [] => .ok []
  | header :: rows => loadRows header 1 rows

/-- Embedding of `CSV::save_csv_write`: serialize the records behind a `csv::Writer`,
which writes the header derived from `Bar` lazily on the first
`serialize` call — so an empty sequence flushes zero bytes — and then
flushes. -/
def save_csv_write (bars : List Bar) : String :=
  match bars with
  | [] => ""
  | b :: bs => String.mk (csvChars (barHeader :: (b :: bs).map Bar.toCells))

/-- A record as it comes back from a load: every field kept, except that the
`skip_deserializing` field carries its fixed default. -/
def Bar.defaulted (b : Bar) : Bar := { b with test_skip := always_true }

/-- A full-width input row agreeing with `b` on all deserialized columns but
carrying an arbitrary cell `v` under the `test_skip` column. -/
def rowWithSkip (b : Bar) (v : List Char) : List (List Char) :=
  [b.inst.data, b.date.data, b.«open».data, b.high.data, b.low.data,
   b.close.data, natChars b.volume, v]

/-- The record of the repository's tests and of the spec's scenario. -/
def bar0 : Bar :=
  ⟨"IC2206", "2022-06-06", "6048.6", "6186.4", "6031.2", "6157.8", 90628, true⟩

/-- A header omitting the required `volume` column. -/
def hdr7 : List (List Char) :=
  ["inst".data, "date".data, "open".data, "high".data, "low".data,
   "close".data, "test_skip".data]

/-! ## Byte-order-mark decoding (`encoding_rs_io::DecodeReaderBytes`) -/

/-- The replacement character lossy decoding substitutes for malformed
sequences. -/
def repChar : Char := '�'

/-- UTF-8 encoding of one scalar value. -/
def utf8EncodeChar (c : Char) : List Nat :=
  let n := c.toNat
  if n < 0x80 then [n]
  else if n < 0x800 then [0xC0 + n / 64, 0x80 + n % 64]
  else if n < 0x10000 then [0xE0 + n / 4096, 0x80 + (n / 64) % 64, 0x80 + n % 64]
  else [0xF0 + n / 262144, 0x80 + (n / 4096) % 64, 0x80 + (n / 64) % 64, 0x80 + n % 64]

/-- UTF-8 encoding of a text. -/
def utf8Encode (s : String) : List Nat :=
  s.data.foldr (fun c acc => utf8EncodeChar c ++ acc) []

/-- Decode one UTF-8 sequence starting at lead byte `b` with tail `bs`:
the scalar (or the replacement character on a malformed sequence) and the
number of continuation bytes consumed beyond the lead byte. -/
def utf8Step (b : Nat) (bs : List Nat) : Char × Nat :=
  if b < 0x80 then (Char.ofNat b, 0)
  else if 0xC2 ≤ b ∧ b ≤ 0xDF then
    match bs with
    | b2 :: _ =>
      if 0x80 ≤ b2 ∧ b2 ≤ 0xBF then (Char.ofNat ((b - 0xC0) * 64 + (b2 - 0x80)), 1)
      else (repChar, 0)
    | [] => (repChar, 0)
  else if 0xE0 ≤ b ∧ b ≤ 0xEF then
    match bs with
    | b2 :: b3 :: _ =>
      if (0x80 ≤ b2 ∧ b2 ≤ 0xBF) ∧ (0x80 ≤ b3 ∧ b3 ≤ 0xBF)
          ∧ (b = 0xE0 → 0xA0 ≤ b2) ∧ (b = 0xED → b2 ≤ 0x9F) then
        (Char.ofNat ((b - 0xE0) * 4096 + (b2 - 0x80) * 64 + (b3 - 0x80)), 2)
      else (repChar, 0)
    | l => (repChar, l.length)
  else if 0xF0 ≤ b ∧ b ≤ 0xF4 then
    match bs with
    | b2 :: b3 :: b4 :: _ =>
      if (0x80 ≤ b2 ∧ b2 ≤ 0xBF) ∧ (0x80 ≤ b3 ∧ b3 ≤ 0xBF) ∧ (0x80 ≤ b4 ∧ b4 ≤ 0xBF)
          ∧ (b = 0xF0 → 0x90 ≤ b2) ∧ (b = 0xF4 → b2 ≤ 0x8F) then
        (Char.ofNat ((b - 0xF0) * 262144 + (b2 - 0x80) * 4096 + (b3 - 0x80) * 64 + (b4 - 0x80)), 3)
      else (repChar, 0)
    | l => (repChar, l.length)
  else (repChar, 0)

/-- Decode UTF-8 sequences one at a time; the fuel argument bounds the
number of sequences and is in practice the byte count, which every step
consumes at least one of. -/
def utf8DecodeAux : Nat → List Nat → List Char
  | _, [] => []
  | 0, _ :: _ => []
  | fuel + 1, b :: bs =>
    (utf8Step b bs).1 :: utf8DecodeAux fuel (bs.drop (utf8Step b bs).2)

/-- Lossy UTF-8 decoding: well-formed sequences decode to their scalar
value, malformed bytes become the replacement character. -/
def utf8Decode (l : List Nat) : List Char := utf8DecodeAux l.length l

/-- UTF-16LE encoding of one scalar value. -/
def utf16leEncodeChar (c : Char) : List Nat :=
  let n := c.toNat
  if n < 0x10000 then [n % 256, n / 256]
  else
    let m := n - 0x10000
    let hi := 0xD800 + m / 0x400
    let lo := 0xDC00 + m % 0x400
    [hi % 256, hi / 256, lo % 256, lo / 256]

/-- UTF-16LE encoding of a text. -/
def utf16leEncode (s : String) : List Nat :=
  s.data.foldr (fun c acc => utf16leEncodeChar c ++ acc) []

/-- Combine one 16-bit unit (with following units `us`) into a scalar,
pairing a high surrogate with a following low surrogate; the result is the
scalar (or replacement character) and the number of extra units consumed. -/
def utf16Step (u : Nat) (us : List Nat) : Char × Nat :=
  if u < 0xD800 ∨ 0xE000 ≤ u then (Char.ofNat u, 0)
  else if u ≤ 0xDBFF then
    match us with
    | lo :: _ =>
      if 0xDC00 ≤ lo ∧ lo ≤ 0xDFFF then
        (Char.ofNat (0x10000 + (u - 0xD800) * 0x400 + (lo - 0xDC00)), 1)
      else (repChar, 0)
    | [] => (repChar, 0)
  else (repChar, 0)

/-- Combine 16-bit units one scalar at a time; the fuel argument bounds the
number of scalars and is in practice the unit count, which every step
consumes at least one of. -/
def utf16UnitsAux : Nat → List Nat → List Char
  | _, [] => []
  | 0, _ :: _ => []
  | fuel + 1, u :: us =>
    (utf16Step u us).1 :: utf16UnitsAux fuel (us.drop (utf16Step u us).2)

/-- Combine a stream of 16-bit units into scalar values, pairing surrogates
and substituting the replacement character for unpaired ones. -/
def utf16Units (l : List Nat) : List Char := utf16UnitsAux l.length l

/-- Little-endian 16-bit units of a byte stream; an odd trailing byte is
malformed and becomes a replacement unit. -/
def leUnits : List Nat → List Nat
  | [] => []
  | [_] => [0xFFFD]
  | b1 :: b2 :: bs => (b1 + 256 * b2) :: leUnits bs

/-- Big-endian 16-bit units of a byte stream. -/
def beUnits : List Nat → List Nat
  | [] => []
  | [_] => [0xFFFD]
  | b1 :: b2 :: bs => (256 * b1 + b2) :: beUnits bs

/-- Embedding of `DecodeReaderBytes`: sniff a leading byte-order mark; when present,
consume it (it is not delivered downstream) and transcode the remaining
bytes from the indicated encoding to UTF-8; without one, bytes are decoded
as UTF-8 (lossily), which leaves well-formed UTF-8 unchanged. -/
def decodeReaderBytes (bs : List Nat) : String :=
  match bs with
  | 0xEF :: 0xBB :: 0xBF :: rest => String.mk (utf8Decode rest)
  | 0xFF :: 0xFE :: rest => String.mk (utf16Units (leUnits rest))
  | 0xFE :: 0xFF :: rest => String.mk (utf16Units (beUnits rest))
  | _ => String.mk (utf8Decode bs)

/-! ## The file-based operations

The filesystem is modelled as a map from paths to byte contents (`none`
meaning the file cannot be opened), and writability of a path as a
predicate; `with_context` attaches the displayed path to any error. -/

/-- Embedding of `CSV::load_csv_file`: open the file (an unopenable path is an error
carrying that path), decode through `DecodeReaderBytes`, then delegate to
`load_csv_read` (a row error is wrapped with the path context). -/
def load_csv_file (fs : String → Option (List Nat)) (path : String) :
    Except String (List Bar) :=
  match fs path with
  | none => .error path
  | some bytes =>
    match load_csv_read (decodeReaderBytes bytes) with
    | .error e => .error (path ++ ": " ++ e.cause)
    | .ok v => .ok v

/-- Embedding of `CSV::save_csv_file`: create/truncate the file (an unwritable path is an
error carrying that path), then delegate to `save_csv_write`; on success the
written bytes are the result. -/
def save_csv_file (writable : String → Bool) (path : String) (bars : List Bar) :
    Except String String :=
  if writable path then .ok (save_csv_write bars) else .error path

/-! ## Supporting lemmas: characters -/

theorem toNat_ofNatChar (n : Nat) (h : n.isValidChar) : (Char.ofNat n).toNat = n := by
  rw [Char.ofNat, dif_pos h]
  simp [Char.ofNatAux, Char.toNat, UInt32.toNat]

theorem ofNatChar_toNat (c : Char) : Char.ofNat c.toNat = c := by
  have h : c.toNat.isValidChar := c.valid
  apply Char.ext
  rw [Char.ofNat, dif_pos h]
  apply UInt32.ext
  simp [Char.ofNatAux, Char.toNat, UInt32.toNat]

theorem special_eq_false {c : Char} :
    special c = false ↔ ¬c = ',' ∧ ¬c = '"' ∧ ¬c = '\n' ∧ ¬c = '\r' := by
  simp only [special, Bool.or_eq_false_iff, beq_eq_false_iff_ne, ne_eq]
  tauto

/-! ## Supporting lemmas: the tokenizer -/

/-- Consuming an unquoted run of plain characters accumulates them into the
current field. -/
theorem parseRec_plain (cs : List Char) (h : ∀ c ∈ cs, special c = false)
    (f : List Char) (row : List (List Char)) (acc : List (List (List Char)))
    (rest : List Char) :
    parseRec .unq f row acc (cs ++ rest) = parseRec .unq (f ++ cs) row acc rest := by
  induction cs generalizing f with
  | nil => simp
  | cons c cs ih =>
    obtain ⟨h1, h2, h3, h4⟩ := special_eq_false.mp (h c (by simp))
    simp only [List.cons_append, parseRec, List.append_eq]
    rw [if_neg h1, if_neg (by tauto), if_neg (by tauto),
      ih (fun c hc => h c (by simp [hc])) (f ++ [c])]
    simp

/-- Consuming the quote-doubled image of arbitrary content inside a quoted
field accumulates the content and stops at the closing quote. -/
theorem parseRec_quoted (cs : List Char) (f : List Char) (row : List (List Char))
    (acc : List (List (List Char))) (rest : List Char) :
    parseRec .inq f row acc (dq cs ++ '"' :: rest) =
      parseRec .postq (f ++ cs) row acc rest := by
  induction cs generalizing f with
  | nil => simp [dq, parseRec]
  | cons c cs ih =>
    by_cases hc : c = '"'
    · subst hc
      simp only [dq, if_pos rfl, List.cons_append, parseRec, List.append_eq,
        if_true, eq_self_iff_true]
      rw [ih (f ++ ['"'])]
      simp
    · simp only [dq, if_neg hc, List.cons_append, parseRec, List.append_eq, if_neg hc]
      rw [ih (f ++ [c])]
      simp

/-- A serialized cell followed by a comma parses back to that cell and
moves to the next field. -/
theorem parseRec_cell_comma (s : List Char) (row : List (List Char))
    (acc : List (List (List Char))) (rest : List Char) :
    parseRec .unq [] row acc (esc s ++ ',' :: rest) =
      parseRec .unq [] (row ++ [s]) acc rest := by
  cases hq : s.any special with
  | false =>
    rw [esc, if_neg (by simp [hq])]
    rw [parseRec_plain s (by simpa using hq) [] row acc (',' :: rest)]
    simp [parseRec]
  | true =>
    rw [esc, if_pos (by simp [hq])]
    show parseRec .unq [] row acc ('"' :: ((dq s ++ ['"']) ++ ',' :: rest)) = _
    have hsplit : (dq s ++ ['"']) ++ ',' :: rest = dq s ++ '"' :: ',' :: rest := by simp
    rw [hsplit]
    have hq2 : parseRec .unq [] row acc ('"' :: (dq s ++ '"' :: ',' :: rest))
        = parseRec .inq [] row acc (dq s ++ '"' :: ',' :: rest) := by
      simp [parseRec]
    rw [hq2, parseRec_quoted s [] row acc (',' :: rest)]
    simp [parseRec]

/-- A serialized cell followed by a record terminator (`\n` or `\r`) parses
back to that cell and ends the record; the record is pushed because it is
not blank. -/
theorem parseRec_cell_term (s : List Char) (row : List (List Char))
    (acc : List (List (List Char))) (rest : List Char) (t : Char)
    (ht : t = '\n' ∨ t = '\r') (hne : ¬(s = [] ∧ row = [])) :
    parseRec .unq [] row acc (esc s ++ t :: rest) =
      parseRec .unq [] [] (acc ++ [row ++ [s]]) rest := by
  have ht' : ¬t = ',' ∧ ¬t = '"' := by
    rcases ht with h | h <;> subst h <;> exact ⟨by decide, by decide⟩
  cases hq : s.any special with
  | false =>
    rw [esc, if_neg (by simp [hq])]
    rw [parseRec_plain s (by simpa using hq) [] row acc (t :: rest)]
    simp only [List.nil_append, parseRec]
    rw [if_neg ht'.1, if_pos ht, if_neg hne]
  | true =>
    rw [esc, if_pos (by simp [hq])]
    show parseRec .unq [] row acc ('"' :: ((dq s ++ ['"']) ++ t :: rest)) = _
    have hsplit : (dq s ++ ['"']) ++ t :: rest = dq s ++ '"' :: t :: rest := by simp
    rw [hsplit]
    have hq2 : parseRec .unq [] row acc ('"' :: (dq s ++ '"' :: t :: rest))
        = parseRec .inq [] row acc (dq s ++ '"' :: t :: rest) := by
      simp [parseRec]
    rw [hq2, parseRec_quoted s [] row acc (t :: rest)]
    simp only [List.nil_append, parseRec]
    rw [if_neg ht'.2, if_neg ht'.1, if_pos ht]

/-- A serialized record followed by a terminator parses back to its cells
and is appended to the accumulated records. -/
theorem parseRec_row (cells : List (List Char)) (row : List (List Char))
    (acc : List (List (List Char))) (rest : List Char) (t : Char)
    (ht : t = '\n' ∨ t = '\r') (hc : cells ≠ [])
    (hne : ¬(row = [] ∧ cells = [[]])) :
    parseRec .unq [] row acc (rowChars cells ++ t :: rest) =
      parseRec .unq [] [] (acc ++ [row ++ cells]) rest := by
  induction cells generalizing row with
  | nil => exact absurd rfl hc
  | cons s cs ih =>
    cases cs with
    | nil =>
      show parseRec .unq [] row acc (esc s ++ t :: rest) = _
      rw [parseRec_cell_term s row acc rest t ht (by rintro ⟨h1, h2⟩; exact hne ⟨h2, by rw [h1]⟩)]
    | cons s2 cs2 =>
      show parseRec .unq [] row acc ((esc s ++ ',' :: rowChars (s2 :: cs2)) ++ t :: rest) = _
      have : (esc s ++ ',' :: rowChars (s2 :: cs2)) ++ t :: rest
          = esc s ++ ',' :: (rowChars (s2 :: cs2) ++ t :: rest) := by simp
      rw [this, parseRec_cell_comma s row acc (rowChars (s2 :: cs2) ++ t :: rest),
        ih (row ++ [s]) (by simp) (by simp)]
      simp

/-- The tokenizer inverts the writer on any sequence of records none of
which is empty or a lone unquoted empty cell (the shapes the writer's
caller never produces: every real record has the header's width). -/
theorem parseRec_rows (rows : List (List (List Char)))
    (acc : List (List (List Char)))
    (h : ∀ r ∈ rows, r ≠ [] ∧ r ≠ [[]]) :
    parseRec .unq [] [] acc (csvChars rows) = acc ++ rows := by
  induction rows generalizing acc with
  | nil => simp [csvChars, parseRec]
  | cons r rs ih =>
    show parseRec .unq [] [] acc ((rowChars r ++ ['\n']) ++ csvChars rs) = _
    have : (rowChars r ++ ['\n']) ++ csvChars rs = rowChars r ++ '\n' :: csvChars rs := by
      simp
    rw [this, parseRec_row r [] acc (csvChars rs) '\n' (Or.inl rfl) (h r (by simp)).1
      (by rintro ⟨-, h2⟩; exact (h r (by simp)).2 h2)]
    simp only [List.nil_append]
    rw [ih (acc ++ [r]) (fun r' hr' => h r' (by simp [hr']))]
    simp

/-- Serializing then tokenizing gives back exactly the given records. -/
theorem parseCsv_csvChars (rows : List (List (List Char)))
    (h : ∀ r ∈ rows, r ≠ [] ∧ r ≠ [[]]) :
    parseCsv (String.mk (csvChars rows)) = rows :=
  parseRec_rows rows [] h

/-! ## Supporting lemmas: decimal round-trip -/

theorem digitChar_isDigit (d : Nat) (h : d < 10) :
    isDigitChar (digitChar d) = true ∧ (digitChar d).toNat = 48 + d := by
  interval_cases d <;> exact ⟨by decide, by decide⟩

theorem foldr_digitChar (ds : List Nat) (h : ∀ d ∈ ds, d < 10) :
    List.foldr (fun d acc => 10 * acc + ((digitChar d).toNat - 48)) 0 ds
      = Nat.ofDigits 10 ds := by
  induction ds with
  | nil => simp [Nat.ofDigits]
  | cons d ds ih =>
    have hd := (digitChar_isDigit d (h d (by simp))).2
    simp only [List.foldr_cons, Nat.ofDigits_cons,
      ih (fun d hdm => h d (by simp [hdm])), hd]
    omega

theorem parseNatChars_natChars (n : Nat) : parseNatChars (natChars n) = some n := by
  by_cases h0 : n = 0
  · subst h0; decide
  · have hd : ∀ d ∈ Nat.digits 10 n, d < 10 :=
      fun _ hdm => Nat.digits_lt_base (by norm_num) hdm
    have hne : Nat.digits 10 n ≠ [] := Nat.digits_ne_nil_iff_ne_zero.mpr h0
    rw [natChars, if_neg h0, parseNatChars]
    rw [if_neg (by simp [hne])]
    have hall : (((Nat.digits 10 n).reverse.map digitChar).all isDigitChar) = true := by
      simp only [List.all_eq_true, List.mem_map, List.mem_reverse]
      rintro c ⟨d, hdm, rfl⟩
      exact (digitChar_isDigit d (hd d hdm)).1
    rw [if_pos hall]
    have hval : List.foldl (fun acc c => 10 * acc + (c.toNat - 48)) 0
        ((Nat.digits 10 n).reverse.map digitChar) = n := by
      rw [List.map_reverse, List.foldl_reverse, List.foldr_map]
      rw [foldr_digitChar _ hd, Nat.ofDigits_digits]
    rw [hval]

/-! ## Supporting lemmas: deserialization -/

theorem toCells_eq_rowWithSkip (b : Bar) :
    Bar.toCells b = rowWithSkip b ((if b.test_skip then "true" else "false").data) := rfl

theorem fromRow_rowWithSkip (b : Bar) (v : List Char) :
    Bar.fromRow barHeader (rowWithSkip b v) = .ok (Bar.defaulted b) := by
  have hvol : parseNat (natChars b.volume) = .ok b.volume := by
    rw [parseNat, parseNatChars_natChars]
  have f1 : barHeader.findIdx? (· = "inst".data) = some 0 := by decide
  have f2 : barHeader.findIdx? (· = "date".data) = some 1 := by decide
  have f3 : barHeader.findIdx? (· = "open".data) = some 2 := by decide
  have f4 : barHeader.findIdx? (· = "high".data) = some 3 := by decide
  have f5 : barHeader.findIdx? (· = "low".data) = some 4 := by decide
  have f6 : barHeader.findIdx? (· = "close".data) = some 5 := by decide
  have f7 : barHeader.findIdx? (· = "volume".data) = some 6 := by decide
  simp [Bar.fromRow, reqField, getCol, rowWithSkip, hvol, Bar.defaulted, always_true,
    f1, f2, f3, f4, f5, f6, f7, Bind.bind, Except.bind, Functor.map, Except.map]
  rfl

/-- Rows that agree with records except in the `test_skip` cell all
deserialize, each to the record with the default applied. -/
theorem loadRows_rowWithSkip (ps : List (Bar × List Char)) (i : Nat) :
    loadRows barHeader i (ps.map fun p => rowWithSkip p.1 p.2)
      = .ok (ps.map fun p => Bar.defaulted p.1) := by
  induction ps generalizing i with
  | nil => rfl
  | cons p ps ih =>
    have hlen : (rowWithSkip p.1 p.2).length = barHeader.length := rfl
    simp only [List.map_cons, loadRows]
    rw [if_pos hlen, fromRow_rowWithSkip, ih (i + 1)]

/-- Deserializing a block of serialized records consumes them all
successfully (defaulting `test_skip`) and continues with the remainder. -/
theorem loadRows_toCells (bs : List Bar) (i : Nat) (rs : List (List (List Char))) :
    loadRows barHeader i (bs.map Bar.toCells ++ rs)
      = (loadRows barHeader (i + bs.length) rs).map (fun l => bs.map Bar.defaulted ++ l) := by
  induction bs generalizing i with
  | nil =>
    simp only [List.map_nil, List.nil_append, List.length_nil, Nat.add_zero]
    cases h : loadRows barHeader i rs <;> simp [Except.map]
  | cons b bs ih =>
    have hlen : (Bar.toCells b).length = barHeader.length := rfl
    simp only [List.map_cons, List.cons_append, loadRows]
    rw [if_pos hlen, toCells_eq_rowWithSkip, fromRow_rowWithSkip]
    simp only [List.append_eq]
    rw [ih (i + 1)]
    have harith : i + 1 + bs.length = i + (b :: bs).length := by simp; omega
    rw [harith]
    cases loadRows barHeader (i + (b :: bs).length) rs <;> simp [Except.map]

/-- The writer's output rows satisfy the tokenizer round-trip side
condition: the header and every record have width 8. -/
theorem saveRows_wellShaped (bars : List Bar) :
    ∀ r ∈ barHeader :: bars.map Bar.toCells, r ≠ [] ∧ r ≠ [[]] := by
  intro r hr
  rcases List.mem_cons.mp hr with h | h
  · subst h; exact ⟨by decide, by decide⟩
  · obtain ⟨b, -, rfl⟩ := List.mem_map.mp h
    exact ⟨by simp [Bar.toCells], by simp [Bar.toCells]⟩

/-- Serializing and tokenizing recovers the header and the record cells. -/
theorem parseCsv_save (b : Bar) (bs : List Bar) :
    parseCsv (save_csv_write (b :: bs)) = barHeader :: (b :: bs).map Bar.toCells :=
  parseCsv_csvChars _ (saveRows_wellShaped (b :: bs))

/-- Loading the serialization of a block of records recovers them all,
with the `skip_deserializing` default applied. -/
theorem load_save_toCells (bars : List Bar) :
    load_csv_read (save_csv_write bars) = .ok (bars.map Bar.defaulted) := by
  cases bars with
  | nil => rfl
  | cons b bs =>
    unfold load_csv_read
    rw [parseCsv_save b bs]
    show loadRows barHeader 1 ((b :: bs).map Bar.toCells) = _
    rw [show (b :: bs).map Bar.toCells = (b :: bs).map Bar.toCells ++ [] by simp]
    rw [loadRows_toCells]
    simp [loadRows, Except.map]

/-! ## Claims -/

/-- C1: for every sequence of records of the fixed record type `Bar`,
serializing with `save_csv_write` and parsing the bytes back with
`load_csv_read` yields a sequence equal to the original on every field not
marked default-only, while the default-only `test_skip` field of every
parsed record equals its fixed default `true` regardless of its original
value. -/
theorem c1_roundtrip (bars : List Bar) :
    load_csv_read (save_csv_write bars) = .ok (bars.map Bar.defaulted) :=
  load_save_toCells bars

/-- C4: parsing zero-byte input yields an empty sequence, not an error, and
parsing a header-only input (with or without a trailing newline) also
yields an empty sequence. -/
theorem c4_empty_input :
    load_csv_read "" = .ok [] ∧
    load_csv_read "inst,date,open,high,low,close,volume,test_skip" = .ok [] ∧
    load_csv_read "inst,date,open,high,low,close,volume,test_skip\n" = .ok [] := by
  refine ⟨by decide, by decide, by decide⟩

/-- C10: serializing an empty record sequence succeeds and writes zero
bytes: no header row is emitted when there are no records. -/
theorem c10_save_empty : save_csv_write [] = "" := rfl

/-- C6: for every non-empty record sequence, the output's first row is the
header listing exactly the record type's serializable field names in
declared order, independent of the records' field values. -/
theorem c6_header_derivation (b : Bar) (bs : List Bar) :
    ∃ rest, save_csv_write (b :: bs)
      = "inst,date,open,high,low,close,volume,test_skip\n" ++ rest := by
  refine ⟨String.mk (csvChars ((b :: bs).map Bar.toCells)), ?_⟩
  apply String.ext
  show (rowChars barHeader ++ ['\n']) ++ csvChars ((b :: bs).map Bar.toCells) = _
  rw [String.data_append]
  have h : rowChars barHeader ++ ['\n']
      = "inst,date,open,high,low,close,volume,test_skip\n".data := by decide
  rw [h]

/-- C8: when `load_csv_file` cannot open its path, it returns an error
identifying that path; when `save_csv_file` cannot create its path, it
returns an error identifying that path. -/
theorem c8_path_in_errors :
    (∀ (fs : String → Option (List Nat)) (path : String), fs path = none →
      load_csv_file fs path = .error path) ∧
    (∀ (w : String → Bool) (path : String) (bars : List Bar), w path = false →
      save_csv_file w path bars = .error path) := by
  constructor
  · intro fs path h
    unfold load_csv_file
    rw [h]
  · intro w path bars h
    unfold save_csv_file
    rw [if_neg (by simp [h])]

/-- Witness for C8 at a concrete unopenable and unwritable path. -/
theorem c8_path_in_errors_witness :
    load_csv_file (fun _ => none) "data.csv" = .error "data.csv" ∧
    save_csv_file (fun _ => false) "data.csv" [bar0] = .error "data.csv" :=
  ⟨c8_path_in_errors.1 (fun _ => none) "data.csv" rfl,
   c8_path_in_errors.2 (fun _ => false) "data.csv" [bar0] rfl⟩

/-- C2: for every input whose header contains the `test_skip` column,
parsing ignores that column's cells and assigns the configured default
`true` to every returned record; in particular the spec's scenario input,
whose row carries the textual value `false`, parses to a record with
`test_skip = true`. -/
theorem c2_default_only_ignored :
    (∀ ps : List (Bar × List Char),
      load_csv_read (String.mk (csvChars (barHeader :: ps.map fun p => rowWithSkip p.1 p.2)))
        = .ok (ps.map fun p => Bar.defaulted p.1)) ∧
    load_csv_read ("inst,date,open,high,low,close,volume,test_skip\n" ++
        "IC2206,2022-06-06,6048.6,6186.4,6031.2,6157.8,90628,false")
      = .ok [Bar.defaulted bar0] := by
  constructor
  · intro ps
    have hshape : ∀ r ∈ barHeader :: ps.map (fun p => rowWithSkip p.1 p.2),
        r ≠ [] ∧ r ≠ [[]] := by
      intro r hr
      rcases List.mem_cons.mp hr with h | h
      · subst h; exact ⟨by decide, by decide⟩
      · obtain ⟨p, -, rfl⟩ := List.mem_map.mp h
        exact ⟨by simp [rowWithSkip], by simp [rowWithSkip]⟩
    unfold load_csv_read
    rw [parseCsv_csvChars _ hshape]
    exact loadRows_rowWithSkip ps 1
  · decide

/-- C3: a load fails with a row error carrying the failing record's index
and the underlying cause when a cell fails type coercion (here a
non-numeric `volume` cell), when a record's cell count differs from the
header's, or when a required non-default field's column is absent from the
header; in every case the whole load aborts with that single error, no
matter how many further records follow, so the caller never receives a
partial result. -/
theorem c3_row_parse_errors :
    (∀ (bs : List Bar) (rest : List (List (List Char))),
      (∀ r ∈ rest, r ≠ [] ∧ r ≠ [[]]) →
      load_csv_read (String.mk (csvChars (barHeader :: (bs.map Bar.toCells ++
          ["IC2206".data, "2022-06-06".data, "6048.6".data, "6186.4".data,
           "6031.2".data, "6157.8".data, "abc".data, "false".data] :: rest))))
        = .error ⟨bs.length + 1, "invalid digit found in string"⟩) ∧
    (∀ (bs : List Bar) (r : List (List Char)) (rest : List (List (List Char))),
      r ≠ [] → r ≠ [[]] → r.length ≠ 8 →
      (∀ r' ∈ rest, r' ≠ [] ∧ r' ≠ [[]]) →
      load_csv_read (String.mk (csvChars (barHeader :: (bs.map Bar.toCells ++ r :: rest))))
        = .error ⟨bs.length + 1, lengthErr r.length 8⟩) ∧
    (∀ (r : List (List Char)) (rest : List (List (List Char))),
      r.length = 7 →
      (∀ r' ∈ rest, r' ≠ [] ∧ r' ≠ [[]]) →
      load_csv_read (String.mk (csvChars (hdr7 :: r :: rest)))
        = .error ⟨1, "missing field volume"⟩) := by
  refine ⟨?_, ?_, ?_⟩
  · intro bs rest hrest
    have hshape : ∀ r ∈ barHeader :: (bs.map Bar.toCells ++
        ["IC2206".data, "2022-06-06".data, "6048.6".data, "6186.4".data,
         "6031.2".data, "6157.8".data, "abc".data, "false".data] :: rest),
        r ≠ [] ∧ r ≠ [[]] := by
      intro r hr
      rcases List.mem_cons.mp hr with h | h
      · subst h; exact ⟨by decide, by decide⟩
      rcases List.mem_append.mp h with h | h
      · obtain ⟨b, -, rfl⟩ := List.mem_map.mp h
        exact ⟨by simp [Bar.toCells], by simp [Bar.toCells]⟩
      rcases List.mem_cons.mp h with h | h
      · subst h; exact ⟨by decide, by decide⟩
      · exact hrest r h
    unfold load_csv_read
    rw [parseCsv_csvChars _ hshape]
    show loadRows barHeader 1 _ = _
    rw [loadRows_toCells]
    have hfrom : Bar.fromRow barHeader
        ["IC2206".data, "2022-06-06".data, "6048.6".data, "6186.4".data,
         "6031.2".data, "6157.8".data, "abc".data, "false".data]
        = .error "invalid digit found in string" := by decide
    simp only [loadRows, hfrom]
    simp [Except.map, Nat.add_comm, barHeader]
  · intro bs r rest hr0 hr1 hr8 hrest
    have hshape : ∀ r' ∈ barHeader :: (bs.map Bar.toCells ++ r :: rest),
        r' ≠ [] ∧ r' ≠ [[]] := by
      intro r' hr'
      rcases List.mem_cons.mp hr' with h | h
      · subst h; exact ⟨by decide, by decide⟩
      rcases List.mem_append.mp h with h | h
      · obtain ⟨b, -, rfl⟩ := List.mem_map.mp h
        exact ⟨by simp [Bar.toCells], by simp [Bar.toCells]⟩
      rcases List.mem_cons.mp h with h | h
      · subst h; exact ⟨hr0, hr1⟩
      · exact hrest r' h
    unfold load_csv_read
    rw [parseCsv_csvChars _ hshape]
    show loadRows barHeader 1 _ = _
    rw [loadRows_toCells]
    have hlen : ¬r.length = barHeader.length := by
      rw [show barHeader.length = 8 from rfl]; exact hr8
    simp only [loadRows, if_neg hlen]
    simp [Except.map, Nat.add_comm, show barHeader.length = 8 from rfl]
  · intro r rest h7 hrest
    have hshape : ∀ r' ∈ hdr7 :: r :: rest, r' ≠ [] ∧ r' ≠ [[]] := by
      intro r' hr'
      rcases List.mem_cons.mp hr' with h | h
      · subst h; exact ⟨by decide, by decide⟩
      rcases List.mem_cons.mp h with h | h
      · subst h
        constructor
        · rintro rfl; simp at h7
        · rintro rfl; simp at h7
      · exact hrest r' h
    unfold load_csv_read
    rw [parseCsv_csvChars _ hshape]
    show loadRows hdr7 1 (r :: rest) = _
    rcases r with - | ⟨x1, - | ⟨x2, - | ⟨x3, - | ⟨x4, - | ⟨x5, - | ⟨x6, - | ⟨x7, tl⟩⟩⟩⟩⟩⟩⟩ <;>
      simp only [List.length_cons, List.length_nil] at h7 <;> try omega
    have htl : tl = [] := List.length_eq_zero.mp (by omega)
    subst htl
    have k1 : hdr7.findIdx? (· = "inst".data) = some 0 := by decide
    have k2 : hdr7.findIdx? (· = "date".data) = some 1 := by decide
    have k3 : hdr7.findIdx? (· = "open".data) = some 2 := by decide
    have k4 : hdr7.findIdx? (· = "high".data) = some 3 := by decide
    have k5 : hdr7.findIdx? (· = "low".data) = some 4 := by decide
    have k6 : hdr7.findIdx? (· = "close".data) = some 5 := by decide
    have kv : hdr7.findIdx? (· = "volume".data) = none := by decide
    have hfrom : Bar.fromRow hdr7 [x1, x2, x3, x4, x5, x6, x7]
        = .error "missing field volume" := by
      simp [Bar.fromRow, reqField, getCol, k1, k2, k3, k4, k5, k6, kv,
        Bind.bind, Except.bind]
    have hlen : ([x1, x2, x3, x4, x5, x6, x7] : List (List Char)).length = hdr7.length := rfl
    simp only [loadRows, if_pos hlen, hfrom]

/-- Witness for C3: the three failure shapes at concrete inputs — a
non-numeric `volume` cell, a two-cell record under the eight-column header,
and a full record under a header missing the `volume` column. -/
theorem c3_row_parse_errors_witness :
    load_csv_read (String.mk (csvChars [barHeader,
        ["IC2206".data, "2022-06-06".data, "6048.6".data, "6186.4".data,
         "6031.2".data, "6157.8".data, "abc".data, "false".data]]))
      = .error ⟨1, "invalid digit found in string"⟩ ∧
    load_csv_read (String.mk (csvChars [barHeader, ["a".data, "b".data]]))
      = .error ⟨1, lengthErr 2 8⟩ ∧
    load_csv_read (String.mk (csvChars [hdr7,
        ["IC2206".data, "2022-06-06".data, "1".data, "2".data, "3".data,
         "4".data, "false".data]]))
      = .error ⟨1, "missing field volume"⟩ := by
  refine ⟨?_, ?_, ?_⟩
  · simpa using c3_row_parse_errors.1 [] [] (by simp)
  · simpa using c3_row_parse_errors.2.1 [] ["a".data, "b".data] []
      (by simp) (by simp) (by simp) (by simp)
  · simpa using c3_row_parse_errors.2.2
      ["IC2206".data, "2022-06-06".data, "1".data, "2".data, "3".data,
       "4".data, "false".data] [] (by simp) (by simp)

/-- Quote-doubling never shortens a cell. -/
theorem dq_length (cs : List Char) : cs.length ≤ (dq cs).length := by
  induction cs with
  | nil => simp [dq]
  | cons c cs ih => by_cases hc : c = '"' <;> simp [dq, hc] <;> omega

/-- C7: a string field value containing a comma, a double quote and a line
break survives a serialize-then-parse round trip exactly; a field is
rewritten by the serializer (wrapped in quotes) if and only if it contains
the delimiter, a quote character, or a line-break character, and an
embedded quote is written as two consecutive quote characters. -/
theorem c7_quoting_fidelity (s : String) (hcomma : ',' ∈ s.data) (hquote : '"' ∈ s.data)
    (hbreak : '\n' ∈ s.data) :
    load_csv_read (save_csv_write [{ bar0 with inst := s }])
      = .ok [{ bar0 with inst := s, test_skip := true }] ∧
    (∀ t : String, esc t.data ≠ t.data ↔
      (',' ∈ t.data ∨ '"' ∈ t.data ∨ '\n' ∈ t.data ∨ '\r' ∈ t.data)) ∧
    (∀ u v : List Char, dq (u ++ '"' :: v) = dq u ++ '"' :: '"' :: dq v) := by
  refine ⟨?_, ?_, ?_⟩
  · simpa [Bar.defaulted, always_true] using load_save_toCells [{ bar0 with inst := s }]
  · intro t
    constructor
    · intro hne
      by_contra hno
      push_neg at hno
      obtain ⟨n1, n2, n3, n4⟩ := hno
      apply hne
      have hany : t.data.any special = false := by
        rw [List.any_eq_false]
        intro c hc
        simp only [special_eq_false.mpr
          ⟨fun h => n1 (h ▸ hc), fun h => n2 (h ▸ hc),
           fun h => n3 (h ▸ hc), fun h => n4 (h ▸ hc)⟩]
        simp
      rw [esc, if_neg (by simp [hany])]
    · rintro hmem heq
      have hany : t.data.any special = true := by
        rcases hmem with h | h | h | h
        · exact List.any_eq_true.mpr ⟨',', h, by decide⟩
        · exact List.any_eq_true.mpr ⟨'"', h, by decide⟩
        · exact List.any_eq_true.mpr ⟨'\n', h, by decide⟩
        · exact List.any_eq_true.mpr ⟨'\r', h, by decide⟩
      rw [esc, if_pos (by simp [hany])] at heq
      have hlen := congrArg List.length heq
      have hdq := dq_length t.data
      simp only [List.length_cons, List.length_append] at hlen
      omega
  · intro u v
    induction u with
    | nil => simp [dq]
    | cons c u ih => by_cases hc : c = '"' <;> simp [dq, hc, ih]

/-- Witness for C7 at the value `a,"b"` followed by a line break and `c`,
which contains all three special characters. -/
theorem c7_quoting_fidelity_witness :
    load_csv_read (save_csv_write [{ bar0 with inst := "a,\"b\"\nc" }])
      = .ok [{ bar0 with inst := "a,\"b\"\nc", test_skip := true }] ∧
    (∀ t : String, esc t.data ≠ t.data ↔
      (',' ∈ t.data ∨ '"' ∈ t.data ∨ '\n' ∈ t.data ∨ '\r' ∈ t.data)) ∧
    (∀ u v : List Char, dq (u ++ '"' :: v) = dq u ++ '"' :: '"' :: dq v) :=
  c7_quoting_fidelity "a,\"b\"\nc" (by decide) (by decide) (by decide)

/-- C9 counterexample: at the concrete record `["a"]` the serializer emits
the bare line-feed writer terminator, which is not the conventional
terminator of the Windows platform — so the serializer does not emit the
platform-conventional terminator. -/
theorem c9_counterexample :
    String.mk (csvChars [["a".data]]) = "a" ++ writerTerminator ∧
    String.mk (csvChars [["a".data]]) ≠ "a" ++ conventionalTerminator true :=
  ⟨by decide, by decide⟩

/-- C9 (amended): the parser accepts both bare line-feed and
carriage-return+line-feed as row terminators; the serializer always emits a
bare line-feed terminator, regardless of platform. -/
theorem c9_terminators (r1 r2 : List (List Char))
    (h10 : r1 ≠ []) (h11 : r1 ≠ [[]]) (h20 : r2 ≠ []) (h21 : r2 ≠ [[]]) :
    (parseCsv (String.mk (rowChars r1 ++ '\r' :: '\n' :: (rowChars r2 ++ ['\r', '\n'])))
        = [r1, r2] ∧
     parseCsv (String.mk (rowChars r1 ++ '\n' :: (rowChars r2 ++ ['\n']))) = [r1, r2]) ∧
    writerTerminator = "\n" ∧
    (∀ rows : List (List (List Char)),
      csvChars rows = (rows.map fun r => rowChars r ++ writerTerminator.data).foldr (· ++ ·) []) := by
  refine ⟨⟨?_, ?_⟩, rfl, ?_⟩
  · show parseRec .unq [] [] [] (rowChars r1 ++ '\r' :: '\n' :: (rowChars r2 ++ ['\r', '\n'])) = _
    rw [parseRec_row r1 [] [] _ '\r' (Or.inr rfl) h10 (by rintro ⟨-, h⟩; exact h11 h)]
    simp only [List.nil_append]
    have hskip : parseRec .unq ([] : List Char) [] [r1] ('\n' :: (rowChars r2 ++ ['\r', '\n']))
        = parseRec .unq [] [] [r1] (rowChars r2 ++ ['\r', '\n']) := by simp [parseRec]
    rw [hskip, show (['\r', '\n'] : List Char) = '\r' :: ['\n'] from rfl,
      parseRec_row r2 [] [r1] ['\n'] '\r' (Or.inr rfl) h20 (by rintro ⟨-, h⟩; exact h21 h)]
    simp [parseRec]
  · show parseRec .unq [] [] [] (rowChars r1 ++ '\n' :: (rowChars r2 ++ ['\n'])) = _
    rw [parseRec_row r1 [] [] _ '\n' (Or.inl rfl) h10 (by rintro ⟨-, h⟩; exact h11 h)]
    simp only [List.nil_append]
    rw [show (['\n'] : List Char) = '\n' :: [] from rfl,
      parseRec_row r2 [] [r1] [] '\n' (Or.inl rfl) h20 (by rintro ⟨-, h⟩; exact h21 h)]
    simp [parseRec]
  · intro rows
    induction rows with
    | nil => rfl
    | cons r rs ih => simp [csvChars, ih, writerTerminator]

/-- Witness for C9 (amended) at the concrete records `["a","b"]` and
`["c"]`. -/
theorem c9_terminators_witness :
    (parseCsv (String.mk (rowChars ["a".data, "b".data] ++ '\r' :: '\n' ::
        (rowChars ["c".data] ++ ['\r', '\n']))) = [["a".data, "b".data], ["c".data]] ∧
     parseCsv (String.mk (rowChars ["a".data, "b".data] ++ '\n' ::
        (rowChars ["c".data] ++ ['\n']))) = [["a".data, "b".data], ["c".data]]) ∧
    writerTerminator = "\n" ∧
    (∀ rows : List (List (List Char)),
      csvChars rows = (rows.map fun r => rowChars r ++ writerTerminator.data).foldr (· ++ ·) []) :=
  c9_terminators ["a".data, "b".data] ["c".data]
    (by decide) (by decide) (by decide) (by decide)

/-- The UTF-8 encoding of an ASCII scalar is the single identical byte. -/
theorem utf8EncodeChar_ascii (c : Char) (hc : c.toNat < 128) :
    utf8EncodeChar c = [c.toNat] := by
  simp only [utf8EncodeChar]
  exact if_pos hc

/-- ASCII text survives UTF-8 encoding followed by lossy UTF-8 decoding. -/
theorem utf8Decode_encode_ascii (cs : List Char) (h : ∀ c ∈ cs, c.toNat < 128) :
    utf8Decode (cs.foldr (fun c acc => utf8EncodeChar c ++ acc) []) = cs := by
  induction cs with
  | nil => rfl
  | cons c cs ih =>
    have hc : c.toNat < 128 := h c (by simp)
    have hstep : utf8Step c.toNat (cs.foldr (fun c acc => utf8EncodeChar c ++ acc) [])
        = (Char.ofNat c.toNat, 0) := by
      simp only [utf8Step]
      rw [if_pos hc]
    simp only [List.foldr_cons, utf8EncodeChar_ascii c hc, List.cons_append,
      List.nil_append]
    show utf8DecodeAux _ _ = _
    simp only [List.length_cons, utf8DecodeAux, hstep, List.drop_zero]
    rw [ofNatChar_toNat]
    exact congrArg (c :: ·) (ih (fun c hm => h c (by simp [hm])))

/-- Every byte of the UTF-8 encoding of ASCII text is below 128. -/
theorem utf8Encode_ascii_bytes (cs : List Char) (h : ∀ c ∈ cs, c.toNat < 128) :
    ∀ b ∈ cs.foldr (fun c acc => utf8EncodeChar c ++ acc) [], b < 128 := by
  induction cs with
  | nil => simp
  | cons c cs ih =>
    have hc : c.toNat < 128 := h c (by simp)
    simp only [List.foldr_cons, utf8EncodeChar_ascii c hc, List.cons_append,
      List.nil_append, List.mem_cons]
    rintro b (rfl | hb)
    · exact hc
    · exact ih (fun c hm => h c (by simp [hm])) b hb

/-- ASCII text survives UTF-16LE encoding followed by unit pairing and
scalar decoding. -/
theorem utf16leDecode_encode_ascii (cs : List Char) (h : ∀ c ∈ cs, c.toNat < 128) :
    utf16Units (leUnits (cs.foldr (fun c acc => utf16leEncodeChar c ++ acc) [])) = cs := by
  induction cs with
  | nil => rfl
  | cons c cs ih =>
    have hc : c.toNat < 128 := h c (by simp)
    have henc : utf16leEncodeChar c = [c.toNat, 0] := by
      simp only [utf16leEncodeChar]
      rw [if_pos (show c.toNat < 65536 by omega),
        Nat.mod_eq_of_lt (show c.toNat < 256 by omega),
        Nat.div_eq_of_lt (show c.toNat < 256 by omega)]
    have hstep : utf16Step c.toNat
        (leUnits (cs.foldr (fun c acc => utf16leEncodeChar c ++ acc) []))
        = (Char.ofNat c.toNat, 0) := by
      simp only [utf16Step]
      rw [if_pos (Or.inl (show c.toNat < 55296 by omega))]
    simp only [List.foldr_cons, henc, List.cons_append, List.nil_append]
    rw [leUnits]
    simp only [Nat.mul_zero, Nat.add_zero]
    show utf16UnitsAux _ _ = _
    simp only [List.length_cons, utf16UnitsAux, hstep, List.drop_zero]
    rw [ofNatChar_toNat]
    exact congrArg (c :: ·) (ih (fun c hm => h c (by simp [hm])))

/-- A byte stream that starts with no byte-order mark — here, one whose
bytes all stay below 128 — is decoded as UTF-8 with nothing consumed. -/
theorem decodeReaderBytes_noBom (bs : List Nat) (h : ∀ b ∈ bs, b < 128) :
    decodeReaderBytes bs = String.mk (utf8Decode bs) := by
  rw [decodeReaderBytes.eq_def]
  split
  · exact absurd (h 0xEF (by simp)) (by omega)
  · exact absurd (h 0xFF (by simp)) (by omega)
  · exact absurd (h 0xFE (by simp)) (by omega)
  · rfl

/-- C5: `load_csv_file`'s decoding layer detects a leading byte-order mark,
consumes it so it is not delivered to the parser, and transcodes from the
BOM-indicated encoding to UTF-8 (shown for the UTF-8 and UTF-16LE marks on
ASCII content, and for arbitrary bytes after the UTF-8 mark), while
`load_csv_read` performs no byte-order-mark handling at all: a BOM-prefixed
input reaches the row parser unchanged, so the first column name carries
the mark and record deserialization fails to find the `inst` column,
whereas the same bytes through `load_csv_file` load fine. -/
theorem c5_bom_only_in_file_path :
    (∀ bs : List Nat,
      decodeReaderBytes (0xEF :: 0xBB :: 0xBF :: bs) = String.mk (utf8Decode bs)) ∧
    (∀ s : String, (∀ c ∈ s.data, c.toNat < 128) →
      decodeReaderBytes (0xEF :: 0xBB :: 0xBF :: utf8Encode s) = s ∧
      decodeReaderBytes (0xFF :: 0xFE :: utf16leEncode s) = s ∧
      decodeReaderBytes (utf8Encode s) = s) ∧
    load_csv_read ("\uFEFF" ++ "inst,date,open,high,low,close,volume,test_skip\n" ++
        "IC2206,2022-06-06,6048.6,6186.4,6031.2,6157.8,90628,false")
      = .error ⟨1, "missing field inst"⟩ ∧
    load_csv_file (fun _ => some (0xEF :: 0xBB :: 0xBF :: utf8Encode
        ("inst,date,open,high,low,close,volume,test_skip\n" ++
         "IC2206,2022-06-06,6048.6,6186.4,6031.2,6157.8,90628,false"))) "bars.csv"
      = .ok [Bar.defaulted bar0] := by
  refine ⟨fun bs => rfl, fun s hs => ⟨?_, ?_, ?_⟩, by decide, by decide⟩
  · show String.mk (utf8Decode (utf8Encode s)) = s
    rw [utf8Encode, utf8Decode_encode_ascii s.data hs]
  · show String.mk (utf16Units (leUnits (utf16leEncode s))) = s
    rw [utf16leEncode, utf16leDecode_encode_ascii s.data hs]
  · rw [decodeReaderBytes_noBom _ (by rw [utf8Encode]; exact utf8Encode_ascii_bytes s.data hs)]
    rw [utf8Encode, utf8Decode_encode_ascii s.data hs]

/-- Witness for C5's universally quantified transcoding parts at a concrete
ASCII text. -/
theorem c5_bom_only_in_file_path_witness :
    decodeReaderBytes (0xEF :: 0xBB :: 0xBF :: utf8Encode "inst,42") = "inst,42" ∧
    decodeReaderBytes (0xFF :: 0xFE :: utf16leEncode "inst,42") = "inst,42" ∧
    decodeReaderBytes (utf8Encode "inst,42") = "inst,42" :=
  c5_bom_only_in_file_path.2.1 "inst,42" (by decide)

end CsvHelper
